import Mathlib

/-!
Shallow embedding of the core numeric logic of the Spending_Tracker
repository (files `spending_tracker_secure.py`, `spending_tracker.py`,
`pages/credit_card_history.py`), together with theorems settling the
frozen claims about its specification.

Calendar months are represented by their absolute month index
`year * 12 + month : ℤ`; adding `k` months to a date raises this index by
exactly `k`, and the source's month difference
`(a.year - b.year) * 12 + (a.month - b.month)` is the difference of the
two indices.  Monetary amounts are embedded as exact rationals.
-/

namespace SpendingTracker

/-- One row of the credit-card history sheet, after the page has coerced
the `Opening Date` column to datetime: `opening` is the card's opening
month index (`none` = NaT), `closing` its closing month index
(`none` = still open). -/
structure CardRow where
  opening : Option ℤ
  closing : Option ℤ
deriving DecidableEq

/-- The per-row membership test of the window-count loop
(`credit_card_history.py` lines 101-106 / `spending_tracker_secure.py`
lines 567-572): the row's date is non-null and the month difference
`checkMonth - opening` lies in `[0, width)`. -/
def inWin (checkMonth : ℤ) (width : ℕ) (row : CardRow) : Bool :=
  match row.opening with
  | some d => decide (0 ≤ checkMonth - d) && decide (checkMonth - d < (width : ℤ))
  | none => false

/-- The window-count loop itself (`cards_in_24_months` accumulator of
`credit_card_history.py` lines 100-106 / `spending_tracker_secure.py`
lines 566-572), generalised from the hard-coded width 24 to a width
parameter: fold over the rows, incrementing the counter for each row
whose non-null opening month lies within `width` months before
`checkMonth`. -/
def cardsInWindow (rows : List CardRow) (checkMonth : ℤ) (width : ℕ) : ℕ :=
  rows.foldl
    (fun acc row =>
      match row.opening with
      | some d =>
          if 0 ≤ checkMonth - d ∧ checkMonth - d < (width : ℤ) then acc + 1 else acc
      | none => acc)
    0

/-- The candidate months examined by the projection loop
(`for months_ahead in range(1, 25)` with `check_date = current_date +
DateOffset(months=months_ahead)`), generalised over the horizon:
`startMonth + 1, ..., startMonth + horizon`. -/
def candidateMonths (startMonth : ℤ) : ℕ → List ℤ
  | 0 => []
  | n + 1 => (startMonth + 1) :: candidateMonths (startMonth + 1) n

/-- The projection finder (`credit_card_history.py` lines 93-110 /
`spending_tracker_secure.py` lines 559-576), generalised over width,
threshold, start month and horizon: scan the candidate months in order
and return the first whose windowed count is strictly below the
threshold; `none` models the loop ending with `target_month = None`
(rendered "Beyond 24 months"). -/
def findFirstMonthBelow (rows : List CardRow) (width threshold : ℕ)
    (startMonth : ℤ) (horizon : ℕ) : Option ℤ :=
  (candidateMonths startMonth horizon).find?
    (fun m => decide (cardsInWindow rows m width < threshold))

/-- The projection exactly as instantiated in the source: width 24,
threshold 5, horizon 24 months ahead of the current month. -/
def codeProjection (rows : List CardRow) (nowMonth : ℤ) : Option ℤ :=
  findFirstMonthBelow rows 24 5 nowMonth 24

lemma cardsInWindow_aux (M : ℤ) (W : ℕ) :
    ∀ (rows : List CardRow) (acc : ℕ),
      rows.foldl
        (fun acc row =>
          match row.opening with
          | some d =>
              if 0 ≤ M - d ∧ M - d < (W : ℤ) then acc + 1 else acc
          | none => acc)
        acc = acc + (rows.filter (inWin M W)).length := by
  intro rows
  induction rows with
  | nil => intro acc; simp
  | cons r t ih =>
      intro acc
      cases h : r.opening with
      | none =>
          simp only [List.foldl_cons, List.filter_cons, h, inWin]
          rw [ih]
          simp
      | some d =>
          by_cases hin : 0 ≤ M - d ∧ M - d < (W : ℤ)
          · simp only [List.foldl_cons, List.filter_cons, h, inWin, hin, if_pos,
              decide_eq_true hin.1, decide_eq_true hin.2, Bool.and_self]
            rw [ih]
            simp [Nat.add_comm, Nat.add_assoc, Nat.add_left_comm]
          · have hb : inWin M W r = false := by
              simp only [inWin, h, Bool.and_eq_false_iff]
              rcases not_and_or.mp hin with h1 | h1
              · left; simpa using h1
              · right; simpa using h1
            simp only [List.foldl_cons, List.filter_cons, h, if_neg hin, hb]
            rw [ih]
            simp

/-- The window count computed by the fold equals the number of rows
passing the membership test. -/
lemma cardsInWindow_eq_filter (rows : List CardRow) (M : ℤ) (W : ℕ) :
    cardsInWindow rows M W = (rows.filter (inWin M W)).length := by
  have h := cardsInWindow_aux M W rows 0
  simpa [cardsInWindow] using h

lemma mem_candidateMonths : ∀ {h : ℕ} {s m : ℤ},
    m ∈ candidateMonths s h ↔ s + 1 ≤ m ∧ m ≤ s + (h : ℤ) := by
  intro h
  induction h with
  | zero => intro s m; simp [candidateMonths]; omega
  | succ n ih =>
      intro s m
      simp only [candidateMonths, List.mem_cons, ih]
      constructor
      · rintro (rfl | ⟨h1, h2⟩) <;> constructor <;> push_cast <;> omega
      · rintro ⟨h1, h2⟩
        by_cases hm : m = s + 1
        · exact Or.inl hm
        · refine Or.inr ⟨by omega, by push_cast at h2 ⊢; omega⟩

lemma candidateMonths_pairwise : ∀ (h : ℕ) (s : ℤ),
    (candidateMonths s h).Pairwise (· < ·) := by
  intro h
  induction h with
  | zero => intro s; simp [candidateMonths]
  | succ n ih =>
      intro s
      refine List.pairwise_cons.mpr ⟨?_, ih (s + 1)⟩
      intro b hb
      have := mem_candidateMonths.mp hb
      omega

lemma candidateMonths_length : ∀ (h : ℕ) (s : ℤ),
    (candidateMonths s h).length = h := by
  intro h
  induction h with
  | zero => intro s; rfl
  | succ n ih => intro s; simp [candidateMonths, ih]

/-- In a strictly increasing list, `find?` returning `some a` means the
predicate is false at every member smaller than `a`. -/
lemma find?_sorted_first {p : ℤ → Bool} :
    ∀ {l : List ℤ}, l.Pairwise (· < ·) → ∀ {a : ℤ}, l.find? p = some a →
      ∀ b ∈ l, b < a → p b = false := by
  intro l
  induction l with
  | nil => intro _ a hfind; simp at hfind
  | cons x xs ih =>
      intro hpw a hfind b hb hba
      have hpwx := List.pairwise_cons.mp hpw
      cases hpx : p x with
      | true =>
          rw [List.find?_cons_of_pos _ hpx] at hfind
          have hax : a = x := by simpa using hfind.symm
          rcases List.mem_cons.mp hb with rfl | hmem
          · omega
          · exact absurd (hpwx.1 b hmem) (by omega)
      | false =>
          rw [List.find?_cons_of_neg _ (by simp [hpx])] at hfind
          rcases List.mem_cons.mp hb with rfl | hmem
          · exact hpx
          · exact ih hpwx.2 hfind b hmem hba

/-- A card record opened in month `m` and still open. -/
def mkOpen (m : ℤ) : CardRow :=
  { opening := some m, closing := none }

/-- Fixture whose width-1 window counts at months 1..6 are
`[5, 5, 5, 4, 5, 3]`: the count dips below 5 at month 4 and rises back
to 5 at month 5. -/
def rowsDip : List CardRow :=
  List.replicate 5 (mkOpen 1) ++ List.replicate 5 (mkOpen 2) ++
    List.replicate 5 (mkOpen 3) ++ List.replicate 4 (mkOpen 4) ++
    List.replicate 5 (mkOpen 5) ++ List.replicate 3 (mkOpen 6)

/-- C1: the projection finder examines candidate months `start + 1`
through `start + horizon` in order and returns the first candidate whose
windowed count is strictly below the threshold — even when a later
month's count rises back above the threshold — and returns `none`
(rendered "Beyond 24 months") exactly when no candidate within the
horizon qualifies. -/
theorem projection_finder_first_below (rows : List CardRow) (W t : ℕ)
    (s : ℤ) (h : ℕ) :
    (∀ m, findFirstMonthBelow rows W t s h = some m →
        (s + 1 ≤ m ∧ m ≤ s + (h : ℤ)) ∧ cardsInWindow rows m W < t ∧
        ∀ m', s + 1 ≤ m' → m' < m → t ≤ cardsInWindow rows m' W) ∧
    (findFirstMonthBelow rows W t s h = none ↔
        ∀ m, s + 1 ≤ m → m ≤ s + (h : ℤ) → t ≤ cardsInWindow rows m W) := by
  constructor
  · intro m hfind
    have hmem : m ∈ candidateMonths s h :=
      List.mem_of_find?_eq_some hfind
    have hbound := mem_candidateMonths.mp hmem
    have hpred : cardsInWindow rows m W < t := by
      have := List.find?_some hfind
      simpa using this
    refine ⟨hbound, hpred, ?_⟩
    intro m' h1 h2
    have hmem' : m' ∈ candidateMonths s h :=
      mem_candidateMonths.mpr ⟨h1, by omega⟩
    have hfalse :=
      find?_sorted_first (candidateMonths_pairwise h s) hfind m' hmem' h2
    have : ¬ cardsInWindow rows m' W < t := by simpa using hfalse
    omega
  · constructor
    · intro hnone m h1 h2
      have hall := List.find?_eq_none.mp hnone m (mem_candidateMonths.mpr ⟨h1, h2⟩)
      have : ¬ cardsInWindow rows m W < t := by simpa using hall
      omega
    · intro hall
      refine List.find?_eq_none.mpr ?_
      intro m hm
      have hbound := mem_candidateMonths.mp hm
      have := hall m hbound.1 hbound.2
      simp only [decide_eq_true_eq]
      omega

theorem projection_finder_first_below_witness :
    cardsInWindow rowsDip 4 1 < 5 ∧ 5 ≤ cardsInWindow rowsDip 2 1 ∧
      5 ≤ cardsInWindow rowsDip 5 1 :=
  ⟨((projection_finder_first_below rowsDip 1 5 0 24).1 4 (by decide)).2.1,
   ((projection_finder_first_below rowsDip 1 5 0 24).1 4 (by decide)).2.2
      2 (by decide) (by decide),
   by decide⟩

/-- C2: the windowed count equals the number of records whose date is
non-null and whose month difference lies in `[0, W)`; records with null
dates are skipped (dropping them does not change the count). -/
theorem count_in_window_spec (rows : List CardRow) (M : ℤ) (W : ℕ) :
    cardsInWindow rows M W =
      (rows.filter (fun r =>
        match r.opening with
        | some d => decide (0 ≤ M - d) && decide (M - d < (W : ℤ))
        | none => false)).length ∧
    cardsInWindow rows M W =
      cardsInWindow (rows.filter (fun r => r.opening.isSome)) M W := by
  constructor
  · exact cardsInWindow_eq_filter rows M W
  · rw [cardsInWindow_eq_filter, cardsInWindow_eq_filter]
    congr 1
    rw [List.filter_filter]
    apply List.filter_congr
    intro r _
    cases h : r.opening <;> simp [inWin, h]

/-- C7: the projection search is bounded by the horizon: the candidate
list it scans has exactly `horizon` entries — so at most `horizon`
window evaluations happen for every input record set, monotone or not —
and any returned month lies within `start + 1 .. start + horizon`. -/
theorem projection_terminates (rows : List CardRow) (W t : ℕ) (s : ℤ)
    (h : ℕ) :
    (candidateMonths s h).length = h ∧
    ∀ m, findFirstMonthBelow rows W t s h = some m →
      s + 1 ≤ m ∧ m ≤ s + (h : ℤ) := by
  refine ⟨candidateMonths_length h s, ?_⟩
  intro m hfind
  exact mem_candidateMonths.mp (List.mem_of_find?_eq_some hfind)

theorem projection_terminates_witness :
    (candidateMonths 0 24).length = 24 ∧
      ((0 : ℤ) + 1 ≤ 4 ∧ (4 : ℤ) ≤ 0 + (24 : ℤ)) :=
  ⟨(projection_terminates rowsDip 1 5 0 24).1,
   (projection_terminates rowsDip 1 5 0 24).2 4 (by decide)⟩

/-- One row of the transactions sheet: `category` is the value of the
category column (`none` = NaN), `amount` the numeric amount
(`none` = NaN/unparseable). -/
structure SpendRow where
  category : Option String
  amount : Option ℚ
deriving DecidableEq

/-- The distinct non-null category keys in ascending order: pandas
`groupby('카테고리')` drops NaN keys (its default `dropna=True`) and
sorts the remaining keys ascending. -/
def catKeys (rows : List SpendRow) : List String :=
  ((rows.filterMap (fun r => r.category)).dedup).insertionSort (· ≤ ·)

/-- Sum of the non-null amounts of a row list (pandas `sum` skips NaN;
an empty or all-NaN group sums to 0). -/
def amountsSum (rows : List SpendRow) : ℚ :=
  (rows.filterMap (fun r => r.amount)).sum

/-- The grouped sums `groupby('카테고리')['금액'].sum()`
(`spending_tracker_secure.py` line 407 / `spending_tracker.py` line
226): one `(key, sum)` entry per distinct non-null key, keys ascending. -/
def sumByKey (rows : List SpendRow) : List (String × ℚ) :=
  (catKeys rows).map (fun k =>
    (k, amountsSum (rows.filter (fun r => r.category == some k))))

/-- The comparison used by `Series.nlargest`: an entry precedes another
when its value is at least as large. -/
def valueGE (a b : String × ℚ) : Prop := b.2 ≤ a.2

instance : DecidableRel valueGE := fun a b => inferInstanceAs (Decidable (b.2 ≤ a.2))

instance : IsTotal (String × ℚ) valueGE := ⟨fun a b => le_total b.2 a.2⟩

instance : IsTrans (String × ℚ) valueGE := ⟨fun _ _ _ h1 h2 => le_trans h2 h1⟩

/-- `Series.nlargest(n)` with its default `keep='first'`: a stable
descending sort by value, keeping the first `n` entries.  Stability
means entries with equal values stay in their input order, which for
the key-ascending output of `sumByKey` is key-ascending order. -/
def topN (n : ℕ) (s : List (String × ℚ)) : List (String × ℚ) :=
  (s.insertionSort valueGE).take n

/-- Record set containing one row whose category is null. -/
def exNullCat : List SpendRow :=
  [{ category := none, amount := some 5 }]

/-- C6 counterexample: on a record set with a single null-category row
of amount 5, the grouped sums have no "unknown" bucket and their total
(0) differs from the sum of all non-null amounts (5): pandas `groupby`
silently drops null keys. -/
theorem sum_by_key_no_unknown_bucket :
    ¬ (("unknown" ∈ (sumByKey exNullCat).map Prod.fst) ∨
        ((sumByKey exNullCat).map Prod.snd).sum = amountsSum exNullCat) := by
  have h1 : sumByKey exNullCat = [] := rfl
  rw [h1]
  simp only [List.map_nil, List.not_mem_nil, List.sum_nil, false_or]
  intro h
  norm_num [amountsSum, exNullCat, List.filterMap_cons] at h

lemma amountsSum_cons (r : SpendRow) (t : List SpendRow) :
    amountsSum (r :: t) = (r.amount.getD 0) + amountsSum t := by
  cases h : r.amount <;> simp [amountsSum, List.filterMap_cons, h]

lemma amountsSum_filter_split (p : SpendRow → Bool) :
    ∀ rows : List SpendRow,
      amountsSum (rows.filter (fun r => r.category.isSome)) =
        amountsSum (rows.filter (fun r => r.category.isSome && p r)) +
          amountsSum (rows.filter (fun r => r.category.isSome && !p r)) := by
  intro rows
  induction rows with
  | nil => simp [amountsSum]
  | cons r t ih =>
      cases hs : r.category.isSome <;> cases hp : p r <;>
        simp [List.filter_cons, hs, hp, amountsSum_cons, ih] <;> ring

lemma grouped_sum : ∀ (K : List String) (rows : List SpendRow), K.Nodup →
    (∀ r ∈ rows, ∀ c, r.category = some c → c ∈ K) →
    (K.map (fun k =>
        amountsSum (rows.filter (fun r => r.category == some k)))).sum =
      amountsSum (rows.filter (fun r => r.category.isSome)) := by
  intro K
  induction K with
  | nil =>
      intro rows _ hcov
      have hnil : rows.filter (fun r => r.category.isSome) = [] := by
        rw [List.filter_eq_nil_iff]
        intro r hr hsome
        cases hc : r.category with
        | none => rw [hc] at hsome; simp at hsome
        | some c => exact absurd (hcov r hr c hc) (List.not_mem_nil c)
      simp [hnil, amountsSum]
  | cons k K' ih =>
      intro rows hnodup hcov
      have hk_notmem : k ∉ K' := (List.nodup_cons.mp hnodup).1
      have hnodup' : K'.Nodup := (List.nodup_cons.mp hnodup).2
      set rows' := rows.filter (fun r => !(r.category == some k)) with hrows'
      have hstep1 : ∀ k' ∈ K',
          rows.filter (fun r => r.category == some k') =
            rows'.filter (fun r => r.category == some k') := by
        intro k' hk'
        rw [hrows', List.filter_filter]
        apply List.filter_congr
        intro r _
        cases hc : r.category with
        | none => simp
        | some c =>
            by_cases hck : c = k'
            · subst hck
              have : ¬ c = k := fun hckk => hk_notmem (hckk ▸ hk')
              simp [this]
            · simp [hck]
      have hcov' : ∀ r ∈ rows', ∀ c, r.category = some c → c ∈ K' := by
        intro r hr c hc
        have hr2 := List.mem_filter.mp hr
        have hinK := hcov r hr2.1 c hc
        have hne : c ≠ k := by
          intro hceq
          subst hceq
          have := hr2.2
          rw [hc] at this
          simp at this
        exact (List.mem_cons.mp hinK).resolve_left hne
      have hIH := ih rows' hnodup' hcov'
      have hmapeq :
          K'.map (fun k' =>
              amountsSum (rows.filter (fun r => r.category == some k'))) =
            K'.map (fun k' =>
              amountsSum (rows'.filter (fun r => r.category == some k'))) := by
        apply List.map_congr_left
        intro k' hk'
        rw [hstep1 k' hk']
      have hfp : rows.filter (fun r => r.category.isSome &&
          (r.category == some k)) = rows.filter (fun r => r.category == some k) := by
        apply List.filter_congr
        intro r _
        cases hc : r.category <;> simp
      have hfnp : rows.filter (fun r => r.category.isSome &&
          !(r.category == some k)) = rows'.filter (fun r => r.category.isSome) := by
        rw [hrows', List.filter_filter]
      have hsplit := amountsSum_filter_split (fun r => r.category == some k) rows
      rw [hfp, hfnp] at hsplit
      calc ((k :: K').map (fun k' =>
              amountsSum (rows.filter (fun r => r.category == some k')))).sum
          = amountsSum (rows.filter (fun r => r.category == some k)) +
              (K'.map (fun k' =>
                amountsSum (rows.filter (fun r => r.category == some k')))).sum := by
                simp
        _ = amountsSum (rows.filter (fun r => r.category == some k)) +
              amountsSum (rows'.filter (fun r => r.category.isSome)) := by
                rw [hmapeq, hIH]
        _ = amountsSum (rows.filter (fun r => r.category.isSome)) := hsplit.symm

lemma mem_catKeys {rows : List SpendRow} {c : String} :
    c ∈ catKeys rows ↔ c ∈ rows.filterMap (fun r => r.category) := by
  unfold catKeys
  rw [(List.perm_insertionSort (· ≤ ·) _).mem_iff, List.mem_dedup]

lemma catKeys_nodup (rows : List SpendRow) : (catKeys rows).Nodup := by
  unfold catKeys
  rw [(List.perm_insertionSort (· ≤ ·) _).nodup_iff]
  exact List.nodup_dedup _

/-- C6 amended: pandas `groupby` drops null-key records, so the sum of
all bucket values equals the sum of the non-null amounts of the records
whose key is non-null (not of all records). -/
theorem sum_by_key_partition (rows : List SpendRow) :
    ((sumByKey rows).map Prod.snd).sum =
      amountsSum (rows.filter (fun r => r.category.isSome)) := by
  have hcov : ∀ r ∈ rows, ∀ c, r.category = some c → c ∈ catKeys rows := by
    intro r hr c hc
    exact mem_catKeys.mpr (List.mem_filterMap.mpr ⟨r, hr, hc⟩)
  have h := grouped_sum (catKeys rows) rows (catKeys_nodup rows) hcov
  rw [sumByKey, List.map_map]
  exact h

/-- Strict ordering "descending by value, ties broken by key ascending". -/
def lexLt (a b : String × ℚ) : Prop := b.2 < a.2 ∨ (a.2 = b.2 ∧ a.1 < b.1)

lemma orderedInsert_lex {x : String × ℚ} :
    ∀ {s : List (String × ℚ)}, s.Pairwise lexLt → (∀ y ∈ s, x.1 < y.1) →
      (List.orderedInsert valueGE x s).Pairwise lexLt := by
  intro s
  induction s with
  | nil => intro _ _; simp [List.orderedInsert, List.pairwise_singleton]
  | cons y ys ih =>
      intro hpw hkey
      simp only [List.orderedInsert]
      by_cases hr : valueGE x y
      · rw [if_pos hr]
        have hr2 : y.2 ≤ x.2 := hr
        refine List.pairwise_cons.mpr ⟨?_, hpw⟩
        intro z hz
        rcases List.mem_cons.mp hz with rfl | hzys
        · rcases lt_or_eq_of_le hr2 with h1 | h1
          · exact Or.inl h1
          · exact Or.inr ⟨h1.symm, hkey z (List.mem_cons_self z ys)⟩
        · have hyz := (List.pairwise_cons.mp hpw).1 z hzys
          rcases hyz with h2 | h2
          · exact Or.inl (lt_of_lt_of_le h2 hr2)
          · rcases lt_or_eq_of_le hr2 with h3 | h3
            · exact Or.inl (h2.1 ▸ h3)
            · refine Or.inr ⟨?_, hkey z (List.mem_cons_of_mem y hzys)⟩
              rw [← h3]
              exact h2.1
      · rw [if_neg hr]
        have hx2 : x.2 < y.2 := lt_of_not_le hr
        have hpc := List.pairwise_cons.mp hpw
        refine List.pairwise_cons.mpr
          ⟨?_, ih hpc.2 (fun w hw => hkey w (List.mem_cons_of_mem y hw))⟩
        intro z hz
        rcases (List.mem_orderedInsert valueGE).mp hz with rfl | hzys
        · exact Or.inl hx2
        · exact hpc.1 z hzys

/-- Mathlib's insertion sort is stable: sorting a key-ascending list by
descending value yields a list ordered by value descending with ties in
key-ascending order. -/
lemma insertionSort_lex :
    ∀ {l : List (String × ℚ)}, l.Pairwise (fun a b => a.1 < b.1) →
      (List.insertionSort valueGE l).Pairwise lexLt := by
  intro l
  induction l with
  | nil => intro _; simp [List.insertionSort]
  | cons x t ih =>
      intro hpw
      simp only [List.insertionSort]
      have hpc := List.pairwise_cons.mp hpw
      apply orderedInsert_lex (ih hpc.2)
      intro y hy
      exact hpc.1 y ((List.perm_insertionSort valueGE t).mem_iff.mp hy)

lemma sumByKey_keyAsc (rows : List SpendRow) :
    (sumByKey rows).Pairwise (fun a b => a.1 < b.1) := by
  have hsorted : (catKeys rows).Sorted (· ≤ ·) :=
    List.sorted_insertionSort (· ≤ ·) _
  have hlt : (catKeys rows).Sorted (· < ·) :=
    hsorted.lt_of_le (catKeys_nodup rows)
  exact hlt.map _ (fun a b hab => hab)

/-- Record set summing to the mapping A ↦ 50, B ↦ 50, C ↦ 10. -/
def exTie : List SpendRow :=
  [{ category := some "A", amount := some 50 },
   { category := some "B", amount := some 50 },
   { category := some "C", amount := some 10 }]

lemma strAB : ("A" : String) < "B" := by
  rw [String.lt_iff_toList_lt]
  decide

lemma strBC : ("B" : String) < "C" := by
  rw [String.lt_iff_toList_lt]
  decide

lemma catKeys_exTie : catKeys exTie = ["A", "B", "C"] := by
  have h1 : (exTie.filterMap (fun r => r.category)).dedup = ["A", "B", "C"] := by
    decide
  rw [catKeys, h1]
  apply List.Sorted.insertionSort_eq
  refine List.sorted_cons.mpr ⟨?_, List.sorted_cons.mpr ⟨?_,
    List.sorted_cons.mpr ⟨?_, List.sorted_nil⟩⟩⟩
  · intro b hb
    rcases List.mem_cons.mp hb with rfl | hb2
    · exact strAB.le
    · rcases List.mem_singleton.mp hb2 with rfl
      exact (strAB.trans strBC).le
  · intro b hb
    rcases List.mem_singleton.mp hb with rfl
    exact strBC.le
  · intro b hb
    exact absurd hb (List.not_mem_nil b)

lemma sumByKey_exTie :
    sumByKey exTie = [("A", (50 : ℚ)), ("B", 50), ("C", 10)] := by
  rw [sumByKey, catKeys_exTie]
  have hA : exTie.filter (fun r => r.category == some "A") =
      [{ category := some "A", amount := some 50 }] := by decide
  have hB : exTie.filter (fun r => r.category == some "B") =
      [{ category := some "B", amount := some 50 }] := by decide
  have hC : exTie.filter (fun r => r.category == some "C") =
      [{ category := some "C", amount := some 10 }] := by decide
  simp [hA, hB, hC, amountsSum]

lemma sort_exTie :
    List.insertionSort valueGE [("A", (50 : ℚ)), ("B", 50), ("C", 10)] =
      [("A", (50 : ℚ)), ("B", 50), ("C", 10)] := by
  apply List.Sorted.insertionSort_eq
  refine List.sorted_cons.mpr ⟨?_, List.sorted_cons.mpr ⟨?_,
    List.sorted_cons.mpr ⟨?_, List.sorted_nil⟩⟩⟩
  · intro b hb
    rcases List.mem_cons.mp hb with rfl | hb2
    · norm_num [valueGE]
    · rcases List.mem_singleton.mp hb2 with rfl
      norm_num [valueGE]
  · intro b hb
    rcases List.mem_singleton.mp hb with rfl
    norm_num [valueGE]
  · intro b hb
    exact absurd hb (List.not_mem_nil b)

lemma topN_exTie : topN 2 (sumByKey exTie) = [("A", (50 : ℚ)), ("B", 50)] := by
  rw [topN, sumByKey_exTie, sort_exTie]
  rfl

/-- C5: `topN` returns entries ordered descending by value with ties
broken by key ascending; its entries are taken from the grouped sums and
dominate every entry it leaves out; on the mapping
A ↦ 50, B ↦ 50, C ↦ 10 with n = 2 it returns [(A,50),(B,50)] in that
order. -/
theorem top_n_ordering (rows : List SpendRow) (n : ℕ) :
    (topN n (sumByKey rows)).Pairwise lexLt ∧
    (topN n (sumByKey rows)).length = min n (sumByKey rows).length ∧
    (∀ a ∈ topN n (sumByKey rows), a ∈ sumByKey rows) ∧
    (∀ a ∈ topN n (sumByKey rows),
      ∀ b ∈ (List.insertionSort valueGE (sumByKey rows)).drop n, b.2 ≤ a.2) ∧
    topN 2 (sumByKey exTie) = [("A", 50), ("B", 50)] := by
  have hlex : (List.insertionSort valueGE (sumByKey rows)).Pairwise lexLt :=
    insertionSort_lex (sumByKey_keyAsc rows)
  have hperm := List.perm_insertionSort valueGE (sumByKey rows)
  refine ⟨?_, ?_, ?_, ?_, topN_exTie⟩
  · exact List.Pairwise.sublist (List.take_sublist n _) hlex
  · rw [topN, List.length_take, hperm.length_eq]
  · intro a ha
    exact hperm.mem_iff.mp (List.take_subset n _ ha)
  · intro a ha b hb
    have hsorted : (List.insertionSort valueGE (sumByKey rows)).Pairwise valueGE :=
      List.sorted_insertionSort valueGE (sumByKey rows)
    rw [← List.take_append_drop n (List.insertionSort valueGE (sumByKey rows)),
      List.pairwise_append] at hsorted
    exact hsorted.2.2 a ha b hb

theorem top_n_ordering_witness :
    (("A", (50 : ℚ)) ∈ sumByKey exTie) ∧
      ((10 : ℚ) ≤ 50) :=
  ⟨(top_n_ordering exTie 2).2.2.1 ("A", 50) (by rw [topN_exTie]; simp),
   (top_n_ordering exTie 2).2.2.2.1 ("A", 50) (by rw [topN_exTie]; simp)
      ("C", 10) (by rw [sumByKey_exTie, sort_exTie]; simp)⟩

/-- A float-valued cell of the growth computation: finite values are
exact rationals; `posInf`, `negInf` and `nan` embed the IEEE values that
pandas produces for a zero denominator (`x/0 = ±inf`, `0/0 = nan`). -/
inductive GVal where
  | num (q : ℚ)
  | posInf
  | negInf
  | nan
deriving DecidableEq

/-- IEEE division of two finite exact values. -/
def fdiv (a b : ℚ) : GVal :=
  if b = 0 then
    (if 0 < a then GVal.posInf else if a < 0 then GVal.negInf else GVal.nan)
  else GVal.num (a / b)

/-- The affine step `(x - 1) * 100` applied to a float cell: infinities
and NaN propagate unchanged (the multiplier 100 is positive). -/
def gSub1Mul100 : GVal → GVal
  | GVal.num q => GVal.num ((q - 1) * 100)
  | x => x

/-- One `pct_change() * 100` entry: current over previous, minus 1,
times 100. -/
def pct100 (prev cur : ℚ) : GVal := gSub1Mul100 (fdiv cur prev)

/-- The growth-rate column
`portfolio_timeline['Value'].pct_change() * 100`
(`spending_tracker_secure.py` line 798), carrying the previous value
through the fold: each output point is (period, value, growth cell); the
first point's cell is NaN. -/
def growthRates : Option ℚ → List (ℤ × ℚ) → List (ℤ × ℚ × GVal)
  | _, [] => []
  | none, (m, v) :: rest => (m, v, GVal.nan) :: growthRates (some v) rest
  | some p, (m, v) :: rest => (m, v, pct100 p v) :: growthRates (some v) rest

def growthSeries (pts : List (ℤ × ℚ)) : List (ℤ × ℚ × GVal) :=
  growthRates none pts

/-- The total-growth statistic
`((Value.iloc[-1] / Value.iloc[0]) - 1) * 100`
(`spending_tracker_secure.py` lines 810-811), computed by the page only
when the timeline has more than one point. -/
def totalGrowth (pts : List (ℤ × ℚ)) : Option GVal :=
  if 1 < pts.length then
    match pts.head?, pts.getLast? with
    | some (_, f), some (_, l) => some (gSub1Mul100 (fdiv l f))
    | _, _ => none
  else none

lemma growthRates_get_succ :
    ∀ (pts : List (ℤ × ℚ)) (o : Option ℚ) (i : ℕ) (pv cv : ℤ × ℚ),
      pts[i]? = some pv → pts[i + 1]? = some cv →
      (growthRates o pts)[i + 1]? = some (cv.1, cv.2, pct100 pv.2 cv.2) := by
  intro pts
  induction pts with
  | nil => intro o i pv cv h1 _; simp at h1
  | cons a rest ih =>
      intro o i pv cv h1 h2
      obtain ⟨m, v⟩ := a
      cases i with
      | zero =>
          have hpv : pv = (m, v) := by simpa using h1.symm
          cases rest with
          | nil => simp at h2
          | cons b t =>
              obtain ⟨mb, vb⟩ := b
              have hcv : cv = (mb, vb) := by simpa using h2.symm
              subst hpv
              subst hcv
              cases o <;> simp [growthRates]
      | succ j =>
          have h1t : rest[j]? = some pv := by simpa using h1
          have h2t : rest[j + 1]? = some cv := by simpa using h2
          have := ih (some v) j pv cv h1t h2t
          cases o <;> simpa [growthRates] using this

lemma pct100_of_ne_zero {p : ℚ} (v : ℚ) (hp : p ≠ 0) :
    pct100 p v = GVal.num ((v - p) / p * 100) := by
  rw [pct100, fdiv, if_neg hp, gSub1Mul100]
  congr 1
  field_simp

lemma pct100_of_zero (v : ℚ) :
    pct100 0 v =
      (if 0 < v then GVal.posInf else if v < 0 then GVal.negInf
       else GVal.nan) := by
  rw [pct100, fdiv, if_pos rfl]
  by_cases h1 : 0 < v
  · rw [if_pos h1]; rfl
  · rw [if_neg h1]
    by_cases h2 : v < 0
    · rw [if_pos h2]; rfl
    · rw [if_neg h2]; rfl

/-- Timeline used by the spec's worked example, with 2024-01..2024-03
rendered as month indices 0..2. -/
def exGrowth : List (ℤ × ℚ) := [(0, 100), (1, 110), (2, 99)]

lemma growthSeries_exGrowth :
    growthSeries exGrowth =
      [(0, 100, GVal.nan), (1, 110, GVal.num 10), (2, 99, GVal.num (-10))] := by
  show growthRates none exGrowth = _
  norm_num [exGrowth, growthRates, pct100, fdiv, gSub1Mul100]

/-- C4: the growth series assigns
`(value[i] - value[i-1]) / value[i-1] * 100` to every point with a
nonzero predecessor, gives the first point no growth rate (NaN, not
zero), and on the worked example `[100, 110, 99]` yields rates
`[null, +10.0, -10.0]`. -/
theorem growth_series_rates (pts : List (ℤ × ℚ)) (i : ℕ) (pv cv : ℤ × ℚ)
    (h1 : pts[i]? = some pv) (h2 : pts[i + 1]? = some cv)
    (hnz : pv.2 ≠ 0) :
    (growthSeries pts)[i + 1]? =
      some (cv.1, cv.2, GVal.num ((cv.2 - pv.2) / pv.2 * 100)) ∧
    (∀ (m : ℤ) (v : ℚ) (rest : List (ℤ × ℚ)), pts = (m, v) :: rest →
      (growthSeries pts)[0]? = some (m, v, GVal.nan)) ∧
    (growthSeries exGrowth).map (fun t => t.2.2) =
      [GVal.nan, GVal.num 10, GVal.num (-10)] := by
  refine ⟨?_, ?_, by rw [growthSeries_exGrowth]; rfl⟩
  · rw [growthSeries, growthRates_get_succ pts none i pv cv h1 h2,
      pct100_of_ne_zero cv.2 hnz]
  · rintro m v rest rfl
    simp [growthSeries, growthRates]

theorem growth_series_rates_witness :
    (growthSeries exGrowth)[0 + 1]? =
      some (1, 110, GVal.num ((110 - 100) / 100 * 100)) :=
  (growth_series_rates exGrowth 0 (0, 100) (1, 110)
    (by rfl) (by rfl) (by norm_num)).1

/-- Timeline whose first value is zero. -/
def exZeroBase : List (ℤ × ℚ) := [(0, 0), (1, 100)]

lemma growthSeries_exZeroBase :
    growthSeries exZeroBase = [(0, 0, GVal.nan), (1, 100, GVal.posInf)] := by
  show growthRates none exZeroBase = _
  norm_num [exZeroBase, growthRates, pct100, fdiv, gSub1Mul100]

lemma totalGrowth_exZeroBase : totalGrowth exZeroBase = some GVal.posInf := by
  norm_num [totalGrowth, exZeroBase, fdiv, gSub1Mul100]

/-- C3 counterexample: on the timeline `[(month 0, 0), (month 1, 100)]`
the zero baseline is NOT surfaced as a distinct undefined-growth result:
the month-1 growth cell is the float value +infinity, and the
total-growth statistic likewise returns +infinity instead of failing. -/
theorem growth_zero_baseline_counterexample :
    ¬ ((∀ t ∈ growthSeries exZeroBase,
          t.2.2 ≠ GVal.posInf ∧ t.2.2 ≠ GVal.negInf ∧ t.2.2 ≠ GVal.num 0) ∧
        totalGrowth exZeroBase ≠ some GVal.posInf) := by
  intro h
  exact h.2 totalGrowth_exZeroBase

/-- C3 amended: a zero previous value is coerced to an IEEE special
float, not surfaced as a distinct error result: the growth cell is
+infinity, -infinity or NaN according to the sign of the current value,
and the total-growth statistic over a timeline whose first value is 0
returns the corresponding special float rather than failing. -/
theorem growth_zero_baseline_amended :
    (∀ (pts : List (ℤ × ℚ)) (i : ℕ) (pv cv : ℤ × ℚ),
      pts[i]? = some pv → pts[i + 1]? = some cv → pv.2 = 0 →
      (growthSeries pts)[i + 1]? = some (cv.1, cv.2,
        if 0 < cv.2 then GVal.posInf else if cv.2 < 0 then GVal.negInf
        else GVal.nan)) ∧
    (∀ (pts : List (ℤ × ℚ)) (f l : ℤ × ℚ),
      1 < pts.length → pts.head? = some f → pts.getLast? = some l →
      f.2 = 0 →
      totalGrowth pts = some
        (if 0 < l.2 then GVal.posInf else if l.2 < 0 then GVal.negInf
         else GVal.nan)) := by
  constructor
  · intro pts i pv cv h1 h2 hz
    rw [growthSeries, growthRates_get_succ pts none i pv cv h1 h2, hz,
      pct100_of_zero]
  · intro pts f l hlen hf hl hz
    obtain ⟨mf, vf⟩ := f
    obtain ⟨ml, vl⟩ := l
    simp only at hz
    rw [totalGrowth, if_pos hlen, hf, hl]
    subst hz
    show some (gSub1Mul100 (fdiv vl 0)) = _
    rw [fdiv, if_pos rfl]
    by_cases h1 : 0 < vl
    · rw [if_pos h1]; rfl
    · rw [if_neg h1]
      by_cases h2 : vl < 0
      · rw [if_pos h2]; rfl
      · rw [if_neg h2]; rfl

theorem growth_zero_baseline_amended_witness :
    (growthSeries exZeroBase)[0 + 1]? =
      some (1, 100,
        if 0 < (100 : ℚ) then GVal.posInf else if (100 : ℚ) < 0 then
          GVal.negInf else GVal.nan) ∧
    totalGrowth exZeroBase = some
      (if 0 < (100 : ℚ) then GVal.posInf else if (100 : ℚ) < 0 then
        GVal.negInf else GVal.nan) :=
  ⟨growth_zero_baseline_amended.1 exZeroBase 0 (0, 0) (1, 100)
      (by rfl) (by rfl) (by rfl),
   growth_zero_baseline_amended.2 exZeroBase (0, 0) (1, 100)
      (by norm_num [exZeroBase]) (by rfl) (by rfl) (by rfl)⟩

/-- The environment variables the login check reads: the primary pair
ST_USERNAME / ST_PASSWORD and the values of ST_USERNAME_i /
ST_PASSWORD_i for i = 2, 3, ...; entries beyond the list are unset. -/
structure Env where
  primaryUser : Option String
  primaryPass : Option String
  additional : List (Option String × Option String)

/-- Python truthiness of an optional environment string: `None` and the
empty string are falsy. -/
def truthy : Option String → Bool
  | none => false
  | some s => !(s == "")

/-- The `while True` collection loop of `check_credentials`
(`spending_tracker_secure.py` lines 84-93): read the pair at
i = 2, 3, ... and stop at the first index where either variable is
falsy. -/
def collectAdditional :
    List (Option String × Option String) → List (String × String)
  | [] => []
  | (ou, op) :: rest =>
    if truthy ou && truthy op then
      (ou.getD "", op.getD "") :: collectAdditional rest
    else []

/-- The login check `check_credentials`
(`spending_tracker_secure.py` lines 63-100), with the SHA-256 hex digest
`hash_password` (lines 38-40) abstracted as a function parameter: both
sides of each password comparison go through it. -/
def check_credentials (hash : String → String) (env : Env)
    (username password : String) : Bool :=
  if !(truthy env.primaryUser) || !(truthy env.primaryPass) then false
  else if username == env.primaryUser.getD "" &&
      (hash password == hash (env.primaryPass.getD "")) then true
  else
    (collectAdditional env.additional).any
      (fun up => username == up.1 && (hash password == hash up.2))

/-- The same check with plain string comparison of passwords, following
the claim's words ("extensionally equal to plain string comparison"). -/
def check_credentials_plain (env : Env) (username password : String) : Bool :=
  if !(truthy env.primaryUser) || !(truthy env.primaryPass) then false
  else if username == env.primaryUser.getD "" &&
      (password == env.primaryPass.getD "") then true
  else
    (collectAdditional env.additional).any
      (fun up => username == up.1 && (password == up.2))

lemma plain_true_iff (env : Env) (u p : String) :
    check_credentials_plain env u p = true ↔
      ((truthy env.primaryUser = true ∧ truthy env.primaryPass = true) ∧
        ((u = env.primaryUser.getD "" ∧ p = env.primaryPass.getD "") ∨
          (u, p) ∈ collectAdditional env.additional)) := by
  unfold check_credentials_plain
  by_cases h0 : (!(truthy env.primaryUser) || !(truthy env.primaryPass)) = true
  · rw [if_pos h0]
    constructor
    · intro h; exact absurd h (by simp)
    · rintro ⟨⟨hpu, hpp⟩, _⟩
      rw [hpu, hpp] at h0
      simp at h0
  · rw [if_neg h0]
    rw [Bool.or_eq_true, not_or] at h0
    obtain ⟨hbu, hbp⟩ := h0
    have hpu : truthy env.primaryUser = true := by
      cases hc : truthy env.primaryUser
      · rw [hc] at hbu; simp at hbu
      · rfl
    have hpp : truthy env.primaryPass = true := by
      cases hc : truthy env.primaryPass
      · rw [hc] at hbp; simp at hbp
      · rfl
    by_cases h1 : (u == env.primaryUser.getD "" &&
        (p == env.primaryPass.getD "")) = true
    · rw [if_pos h1]
      rw [Bool.and_eq_true, beq_iff_eq, beq_iff_eq] at h1
      constructor
      · intro _; exact ⟨⟨hpu, hpp⟩, Or.inl h1⟩
      · intro _; rfl
    · rw [if_neg h1]
      rw [List.any_eq_true]
      constructor
      · rintro ⟨up, hmem, hup⟩
        rw [Bool.and_eq_true, beq_iff_eq, beq_iff_eq] at hup
        refine ⟨⟨hpu, hpp⟩, Or.inr ?_⟩
        obtain ⟨a, b⟩ := up
        obtain ⟨h2, h3⟩ := hup
        simp only at h2 h3
        rw [h2, h3]
        exact hmem
      · rintro ⟨_, hca | hmem⟩
        · exact absurd
            (by rw [Bool.and_eq_true, beq_iff_eq, beq_iff_eq]; exact hca) h1
        · exact ⟨(u, p), hmem, by simp⟩

lemma hash_beq {hash : String → String}
    (hinj : Function.Injective hash) (a b : String) :
    (hash a == hash b) = (a == b) := by
  by_cases hab : a = b
  · simp [hab]
  · have hne : hash a ≠ hash b := fun hh => hab (hinj hh)
    simp [hab, hne]

/-- C10: with any collision-free hash applied to both sides of the
password comparison, `check_credentials` is extensionally the plain
string-comparison check; it returns false whenever the primary pair is
unset (or empty), and otherwise accepts exactly the primary pair and
the pairs collected from ST_USERNAME_i / ST_PASSWORD_i. -/
theorem check_credentials_refines (hash : String → String)
    (hinj : Function.Injective hash) (env : Env)
    (username password : String) :
    check_credentials hash env username password =
      check_credentials_plain env username password ∧
    ((env.primaryUser = none ∨ env.primaryPass = none) →
      check_credentials hash env username password = false) ∧
    (check_credentials_plain env username password = true ↔
      ((truthy env.primaryUser = true ∧ truthy env.primaryPass = true) ∧
        ((username = env.primaryUser.getD "" ∧
            password = env.primaryPass.getD "") ∨
          (username, password) ∈ collectAdditional env.additional))) := by
  refine ⟨?_, ?_, ?_⟩
  · simp only [check_credentials, check_credentials_plain, hash_beq hinj]
  · intro hun
    rcases hun with hu | hp
    · simp [check_credentials, hu, truthy]
    · simp [check_credentials, hp, truthy]
  · exact plain_true_iff env username password

/-- A concrete environment: primary pair admin/pw and one additional
pair bob/pw2. -/
def exEnv : Env :=
  { primaryUser := some "admin", primaryPass := some "pw",
    additional := [(some "bob", some "pw2")] }

theorem check_credentials_refines_witness :
    check_credentials id exEnv "bob" "pw2" =
      check_credentials_plain exEnv "bob" "pw2" ∧
    ((exEnv.primaryUser = none ∨ exEnv.primaryPass = none) →
      check_credentials id exEnv "bob" "pw2" = false) ∧
    (check_credentials_plain exEnv "bob" "pw2" = true ↔
      ((truthy exEnv.primaryUser = true ∧ truthy exEnv.primaryPass = true) ∧
        (("bob" = exEnv.primaryUser.getD "" ∧
            "pw2" = exEnv.primaryPass.getD "") ∨
          ("bob", "pw2") ∈ collectAdditional exEnv.additional))) :=
  check_credentials_refines id (fun _ _ hh => hh) exEnv "bob" "pw2"

/-- A cell of the `Opening Date` column as loaded from the sheet:
either a raw unparsed value (object dtype) or an already-parsed
datetime (`none` = NaT). -/
inductive DateCell where
  | raw (s : String)
  | dt (d : Option ℤ)
deriving DecidableEq

/-- A row of the credit-card sheet as the page first sees it. -/
structure RawRow where
  opening : DateCell
  closing : Option ℤ
deriving DecidableEq

/-- pandas `is_datetime64_any_dtype` on the `Opening Date` column: the
column has datetime dtype iff every cell is a datetime cell. -/
def isDatetimeCol (rows : List RawRow) : Bool :=
  rows.all (fun r =>
    match r.opening with
    | DateCell.dt _ => true
    | DateCell.raw _ => false)

/-- `pd.to_datetime` on one cell, with the date parser abstracted. -/
def coerceCell (parse : String → Option ℤ) : DateCell → DateCell
  | DateCell.raw s => DateCell.dt (parse s)
  | DateCell.dt d => DateCell.dt d

/-- The in-place column assignment
`if not is_datetime: df['Opening Date'] = pd.to_datetime(df['Opening Date'])`
(`spending_tracker_secure.py` lines 552-553 and 590-591): the record
set as it stands after the statement. -/
def coerceOpening (parse : String → Option ℤ)
    (rows : List RawRow) : List RawRow :=
  if isDatetimeCol rows then rows
  else rows.map (fun r => { r with opening := coerceCell parse r.opening })

/-- Reading a coerced cell as the count loop does (`pd.notna` then the
datetime value). -/
def readCell : DateCell → Option ℤ
  | DateCell.raw _ => none
  | DateCell.dt d => d

def toCardRow (r : RawRow) : CardRow :=
  { opening := readCell r.opening, closing := r.closing }

/-- The credit-card page around its metrics
(`spending_tracker_secure.py` lines 535-609) in state-passing style:
filter the open cards (a new frame, line 535), coerce the `Opening
Date` column of `df` in place (lines 552-553), run the projection over
it (lines 559-576), then coerce the `Opening Date` column of
`open_cards` in place (lines 590-591).  Returns (open-card count,
projection result, `df` after the page ran, `open_cards` after the page
ran). -/
def creditCardPage (parse : String → Option ℤ) (nowMonth : ℤ)
    (df : List RawRow) : ℕ × Option ℤ × List RawRow × List RawRow :=
  let openCards := df.filter (fun r => r.closing.isNone)
  let openCount := openCards.length
  let df1 := coerceOpening parse df
  let target := codeProjection (df1.map toCardRow) nowMonth
  let openCards1 := coerceOpening parse openCards
  (openCount, target, df1, openCards1)

/-- A one-row record set whose `Opening Date` column is raw text. -/
def exRawDf : List RawRow :=
  [{ opening := DateCell.raw "2020-01-05", closing := none }]

/-- C8 counterexample: running the credit-card page over a record set
whose `Opening Date` column is not yet datetime leaves the record set
changed — the in-place `pd.to_datetime` assignment replaced every
opening field — so the record set is not left unchanged by every
operation. -/
theorem record_set_mutated_counterexample :
    ¬ ((creditCardPage (fun _ => some 600) 600 exRawDf).2.2.1 = exRawDf) := by
  intro h
  have h2 : (creditCardPage (fun _ => some 600) 600 exRawDf).2.2.1 =
      [{ opening := DateCell.dt (some 600), closing := none }] := by decide
  rw [h2] at h
  exact absurd (List.head_eq_of_cons_eq h) (by decide)

/-- C8 amended: the filtering, window-counting and projection steps of
the page leave the record set unchanged — after the page runs, `df` and
`open_cards` are exactly the result of the dtype coercion of their
initial values, and when the `Opening Date` column is already datetime
(so the coercion is skipped) the page leaves both record sets entirely
untouched.  Only the in-place `pd.to_datetime` column assignment
mutates a record set. -/
theorem record_set_mutated_amended (parse : String → Option ℤ)
    (nowMonth : ℤ) (df : List RawRow) :
    ((creditCardPage parse nowMonth df).2.2.1 = coerceOpening parse df ∧
      (creditCardPage parse nowMonth df).2.2.2 =
        coerceOpening parse (df.filter (fun r => r.closing.isNone))) ∧
    (isDatetimeCol df = true →
      (creditCardPage parse nowMonth df).2.2.1 = df ∧
      (creditCardPage parse nowMonth df).2.2.2 =
        df.filter (fun r => r.closing.isNone)) := by
  refine ⟨⟨rfl, rfl⟩, ?_⟩
  intro hdt
  have hsub : isDatetimeCol (df.filter (fun r => r.closing.isNone)) = true := by
    rw [isDatetimeCol, List.all_eq_true] at hdt ⊢
    intro r hr
    exact hdt r (List.mem_of_mem_filter hr)
  constructor
  · show coerceOpening parse df = df
    rw [coerceOpening, if_pos hdt]
  · show coerceOpening parse (df.filter (fun r => r.closing.isNone)) = _
    rw [coerceOpening, if_pos hsub]

/-- Record set whose `Opening Date` column is already datetime. -/
def exDtDf : List RawRow :=
  [{ opening := DateCell.dt (some 0), closing := none },
   { opening := DateCell.dt (some 3), closing := some 9 }]

theorem record_set_mutated_amended_witness :
    (creditCardPage (fun _ => none) 0 exDtDf).2.2.1 = exDtDf ∧
      (creditCardPage (fun _ => none) 0 exDtDf).2.2.2 =
        exDtDf.filter (fun r => r.closing.isNone) :=
  (record_set_mutated_amended (fun _ => none) 0 exDtDf).2 (by decide)

/-- C9: the core operations are pure functions of their explicit
inputs.  The only ambient value the source reads, `datetime.now()`,
enters the embedding as the explicit start-month argument; with it
fixed, window counting and the projection depend on the record set only
as a multiset (insertion order irrelevant), and grouping and top-N
likewise, so two runs over the same data give identical results. -/
theorem core_ops_deterministic (rows rows2 : List CardRow)
    (hperm : rows.Perm rows2) (srows srows2 : List SpendRow)
    (hsperm : srows.Perm srows2) (M : ℤ) (W t : ℕ) (s : ℤ) (h n : ℕ) :
    cardsInWindow rows M W = cardsInWindow rows2 M W ∧
    findFirstMonthBelow rows W t s h = findFirstMonthBelow rows2 W t s h ∧
    sumByKey srows = sumByKey srows2 ∧
    topN n (sumByKey srows) = topN n (sumByKey srows2) := by
  have hcount : ∀ (m : ℤ), cardsInWindow rows m W = cardsInWindow rows2 m W := by
    intro m
    rw [cardsInWindow_eq_filter, cardsInWindow_eq_filter]
    exact (hperm.filter (inWin m W)).length_eq
  have hkeys : catKeys srows = catKeys srows2 := by
    have hfm := hsperm.filterMap (fun r => r.category)
    have hd := hfm.dedup
    have hp1 := List.perm_insertionSort (α := String) (· ≤ ·)
      (srows.filterMap (fun r => r.category)).dedup
    have hp2 := List.perm_insertionSort (α := String) (· ≤ ·)
      (srows2.filterMap (fun r => r.category)).dedup
    exact List.eq_of_perm_of_sorted
      ((hp1.trans hd).trans hp2.symm)
      (List.sorted_insertionSort (· ≤ ·) _)
      (List.sorted_insertionSort (· ≤ ·) _)
  have hsum : sumByKey srows = sumByKey srows2 := by
    rw [sumByKey, sumByKey, hkeys]
    apply List.map_congr_left
    intro k _
    have hpf := hsperm.filter (fun r => r.category == some k)
    have hpa := hpf.filterMap (fun r => r.amount)
    rw [amountsSum, amountsSum, hpa.sum_eq]
  refine ⟨hcount M, ?_, hsum, by rw [hsum]⟩
  rw [findFirstMonthBelow, findFirstMonthBelow]
  congr 1
  funext m
  rw [hcount m]

theorem core_ops_deterministic_witness :
    cardsInWindow rowsDip 4 1 = cardsInWindow rowsDip.reverse 4 1 ∧
      sumByKey exTie = sumByKey exTie.reverse :=
  ⟨(core_ops_deterministic rowsDip rowsDip.reverse
      (List.reverse_perm rowsDip).symm exTie exTie.reverse
      (List.reverse_perm exTie).symm 4 1 5 0 24 2).1,
   (core_ops_deterministic rowsDip rowsDip.reverse
      (List.reverse_perm rowsDip).symm exTie exTie.reverse
      (List.reverse_perm exTie).symm 4 1 5 0 24 2).2.2.1⟩

end SpendingTracker
